import Mathlib

/-!
Verification of the orchestration core of the design-review application:
the Figma frame-extraction/export pipeline (`supabase/functions/fetch-figma-frames/index.ts`),
the single-screen audit endpoint with its response sanitizer
(`supabase/functions/audit-design/index.ts`), and the bounded-concurrency
multi-screen dispatcher (`src/hooks/useFigmaFrames.ts`).

Each definition is a shallow embedding of the corresponding TypeScript source.
External effects (HTTP fetches, environment variables) are passed in as explicit
environment records; network calls are recorded as events so that temporal
claims ("no fetch before validation") can be stated about the event trace.
-/

namespace UXPro

/-! ### Characters that the repository's string processing depends on.
Named constants are used for the characters that often need escaping. -/

def quoteChar : Char := Char.ofNat 34

def backslashChar : Char := Char.ofNat 92

def lbraceChar : Char := Char.ofNat 123

def rbraceChar : Char := Char.ofNat 125

def backtickChar : Char := Char.ofNat 96

/-! ### JSON values and `JSON.parse`

`tryParseJSON` in `audit-design/index.ts` calls the JavaScript `JSON.parse`.
We model JSON values as an inductive type and `JSON.parse` as a total
recursive-descent parser over the character list, faithful to the strict JSON
grammar (in particular: no trailing commas, no comments, `"`-delimited strings
with the standard escapes, strict number syntax).  Numbers are kept as their
raw source text — no claim depends on numeric value semantics beyond reading
small integers.  A `\uXXXX` escape denoting an unpaired surrogate is mapped to
the null character (JavaScript strings would keep the surrogate); no claim
exercises that corner. -/

inductive Json where
  | null
  | bool (b : Bool)
  | num (raw : String)
  | str (s : String)
  | arr (items : List Json)
  | obj (fields : List (String × Json))
deriving Repr

/-- JSON insignificant whitespace: space, tab, line feed, carriage return. -/
def isJsonWs (c : Char) : Bool :=
  c = ' ' || c = Char.ofNat 9 || c = Char.ofNat 10 || c = Char.ofNat 13

def skipWs : List Char → List Char
  | [] => []
  | c :: cs => if isJsonWs c then skipWs cs else c :: cs

def hexDigit? (c : Char) : Option Nat :=
  if c.isDigit then some (c.toNat - 48)
  else if 'a' ≤ c ∧ c ≤ 'f' then some (c.toNat - 97 + 10)
  else if 'A' ≤ c ∧ c ≤ 'F' then some (c.toNat - 65 + 10)
  else none

/-- Body of a JSON string literal, after the opening quote.  Returns the
decoded characters and the remaining input.  The fuel only needs to dominate
the input length; every recursive step consumes at least one character. -/
def parseStringBody : Nat → List Char → Option (List Char × List Char)
  | 0, _ => none
  | _ + 1, [] => none
  | fuel + 1, c :: cs =>
    if c = quoteChar then some ([], cs)
    else if c = backslashChar then
      match cs with
      | [] => none
      | e :: cs2 =>
        let esc : Option (Char × List Char) :=
          if e = quoteChar then some (quoteChar, cs2)
          else if e = backslashChar then some (backslashChar, cs2)
          else if e = '/' then some ('/', cs2)
          else if e = 'b' then some (Char.ofNat 8, cs2)
          else if e = 'f' then some (Char.ofNat 12, cs2)
          else if e = 'n' then some (Char.ofNat 10, cs2)
          else if e = 'r' then some (Char.ofNat 13, cs2)
          else if e = 't' then some (Char.ofNat 9, cs2)
          else if e = 'u' then
            match cs2 with
            | h1 :: h2 :: h3 :: h4 :: cs3 =>
              match hexDigit? h1, hexDigit? h2, hexDigit? h3, hexDigit? h4 with
              | some a, some b, some c3, some d =>
                some (Char.ofNat (((a * 16 + b) * 16 + c3) * 16 + d), cs3)
              | _, _, _, _ => none
            | _ => none
          else none
        match esc with
        | none => none
        | some (ch, rest) =>
          match parseStringBody fuel rest with
          | some (s, rest2) => some (ch :: s, rest2)
          | none => none
    else if c.toNat < 32 then none
    else
      match parseStringBody fuel cs with
      | some (s, rest2) => some (c :: s, rest2)
      | none => none

/-- JSON number: `-? (0 | [1-9][0-9]*) (. [0-9]+)? ([eE] [+-]? [0-9]+)?`.
Returns the raw matched characters and the remaining input. -/
def parseNumberRaw (cs : List Char) : Option (List Char × List Char) :=
  let signed : List Char × List Char :=
    match cs with
    | c :: rest => if c = '-' then ([c], rest) else ([], cs)
    | [] => ([], [])
  let sign := signed.1
  let cs1 := signed.2
  match cs1 with
  | [] => none
  | d :: rest =>
    if d = '0' then
      let intPart := [d]
      let afterInt := rest
      someTail sign intPart afterInt
    else if d.isDigit then
      let intPart := cs1.takeWhile Char.isDigit
      let afterInt := cs1.dropWhile Char.isDigit
      someTail sign intPart afterInt
    else none
where
  someTail (sign intPart : List Char) (afterInt : List Char) :
      Option (List Char × List Char) :=
    let fraced : Option (List Char × List Char) :=
      match afterInt with
      | p :: r =>
        if p = '.' then
          let ds := r.takeWhile Char.isDigit
          if ds.isEmpty then none else some (p :: ds, r.dropWhile Char.isDigit)
        else some ([], afterInt)
      | [] => some ([], [])
    match fraced with
    | none => none
    | some (fracPart, afterFrac) =>
      let exped : Option (List Char × List Char) :=
        match afterFrac with
        | e :: r =>
          if e = 'e' ∨ e = 'E' then
            let signedExp : List Char × List Char :=
              match r with
              | s :: r2 => if s = '+' ∨ s = '-' then ([s], r2) else ([], r)
              | [] => ([], [])
            let ds := signedExp.2.takeWhile Char.isDigit
            if ds.isEmpty then none
            else some (e :: (signedExp.1 ++ ds), signedExp.2.dropWhile Char.isDigit)
          else some ([], afterFrac)
        | [] => some ([], [])
      match exped with
      | none => none
      | some (expPart, afterExp) =>
        some (sign ++ intPart ++ fracPart ++ expPart, afterExp)

mutual

/-- Recursive-descent JSON value parser.  Fuel decreases on every mutual call;
every two consecutive fuel decrements consume at least one input character, so
fuel `2 * length + 2` can never run out on the way to a verdict. -/
def parseJsonValue : Nat → List Char → Option (Json × List Char)
  | 0, _ => none
  | fuel + 1, cs0 =>
    let cs := skipWs cs0
    match cs with
    | [] => none
    | c :: rest =>
      if c = quoteChar then
        match parseStringBody (rest.length + 1) rest with
        | some (s, r) => some (.str (String.mk s), r)
        | none => none
      else if c = lbraceChar then
        let r := skipWs rest
        match r with
        | [] => none
        | d :: r2 =>
          if d = rbraceChar then some (.obj [], r2)
          else parseJsonMembers fuel [] r
      else if c = '[' then
        let r := skipWs rest
        match r with
        | [] => none
        | d :: r2 =>
          if d = ']' then some (.arr [], r2)
          else parseJsonItems fuel [] r
      else if c = 't' then
        match rest with
        | 'r' :: 'u' :: 'e' :: r => some (.bool true, r)
        | _ => none
      else if c = 'f' then
        match rest with
        | 'a' :: 'l' :: 's' :: 'e' :: r => some (.bool false, r)
        | _ => none
      else if c = 'n' then
        match rest with
        | 'u' :: 'l' :: 'l' :: r => some (.null, r)
        | _ => none
      else
        match parseNumberRaw (c :: rest) with
        | some (raw, r) => some (.num (String.mk raw), r)
        | none => none

/-- Members of a JSON object (after at least one member is known to follow). -/
def parseJsonMembers : Nat → List (String × Json) → List Char →
    Option (Json × List Char)
  | 0, _, _ => none
  | fuel + 1, acc, cs =>
    let cs1 := skipWs cs
    match cs1 with
    | [] => none
    | q :: r1 =>
      if q = quoteChar then
        match parseStringBody (r1.length + 1) r1 with
        | none => none
        | some (key, r2) =>
          let r3 := skipWs r2
          match r3 with
          | [] => none
          | colon :: r4 =>
            if colon = ':' then
              match parseJsonValue fuel r4 with
              | none => none
              | some (v, r5) =>
                let r6 := skipWs r5
                match r6 with
                | [] => none
                | sep :: r7 =>
                  if sep = ',' then
                    parseJsonMembers fuel (acc ++ [(String.mk key, v)]) r7
                  else if sep = rbraceChar then
                    some (.obj (acc ++ [(String.mk key, v)]), r7)
                  else none
            else none
      else none

/-- Items of a JSON array (after at least one item is known to follow). -/
def parseJsonItems : Nat → List Json → List Char → Option (Json × List Char)
  | 0, _, _ => none
  | fuel + 1, acc, cs =>
    match parseJsonValue fuel cs with
    | none => none
    | some (v, r) =>
      let r2 := skipWs r
      match r2 with
      | [] => none
      | sep :: r3 =>
        if sep = ',' then parseJsonItems fuel (acc ++ [v]) r3
        else if sep = ']' then some (.arr (acc ++ [v]), r3)
        else none

end

/-- Model of JavaScript `JSON.parse` as used by `tryParseJSON`: parse one
value with optional surrounding whitespace; any trailing garbage is an error
(the exception is modelled by `none`). -/
def jsonParse (s : String) : Option Json :=
  match parseJsonValue (2 * s.length + 2) s.data with
  | some (j, rest) => if (skipWs rest).isEmpty then some j else none
  | none => none

/-- Field lookup in a parsed JSON object (first matching key). -/
def lookupField : List (String × Json) → String → Option Json
  | [], _ => none
  | (k', v) :: fs, k => if k' = k then some v else lookupField fs k

def jsonField (j : Json) (k : String) : Option Json :=
  match j with
  | .obj fs => lookupField fs k
  | _ => none

/-- Value of a `Json.num` whose raw text is a plain digit string. -/
def natOfDigits? (cs : List Char) : Option Nat :=
  if cs.isEmpty then none
  else if cs.all Char.isDigit then
    some (cs.foldl (fun acc c => acc * 10 + (c.toNat - 48)) 0)
  else none

def jsonNat? (j : Json) : Option Nat :=
  match j with
  | .num raw => natOfDigits? raw.data
  | _ => none

/-! ### The response sanitizer `tryParseJSON`
(`supabase/functions/audit-design/index.ts`, lines 144-175).

```ts
function tryParseJSON(content) {
  let cleaned = content.replace(/BTBTBTjson\n?/g, "").replace(/BTBTBT\n?/g, "").trim();
  try { return JSON.parse(cleaned); } catch {}
  const jsonStart = cleaned.indexOf("LB"); const jsonEnd = cleaned.lastIndexOf("RB");
  if (jsonStart !== -1 && jsonEnd !== -1 && jsonEnd > jsonStart) {
    try { return JSON.parse(cleaned.substring(jsonStart, jsonEnd + 1)); } catch {}
  }
  try { cleaned = cleaned.replace(/,\s*([\]RB])/g, "$1"); return JSON.parse(cleaned); } catch {}
  return null;
}
```
(BT stands for a backtick, LB/RB for the braces.)  The `replace(..., /g)`
calls are modelled as single left-to-right scans, which is exactly the global
regex-replace semantics (earliest match wins, scanning resumes after the
replacement). -/

/-- Whitespace for JavaScript's `\s` class and `String.prototype.trim`:
space, tab, LF, CR, vertical tab, form feed (the Unicode space members of the
class are not modelled; no repository string involves them). -/
def isJsWs (c : Char) : Bool :=
  c = ' ' || c = Char.ofNat 9 || c = Char.ofNat 10 || c = Char.ofNat 13 ||
  c = Char.ofNat 11 || c = Char.ofNat 12

/-- Try to strip `marker` from the front of the input. -/
def dropExact : List Char → List Char → Option (List Char)
  | [], cs => some cs
  | _ :: _, [] => none
  | m :: ms, c :: cs => if c = m then dropExact ms cs else none

/-- Global replacement of `marker` followed by an optional LF with the empty
string, scanning left to right.  Fuel dominates the input length: each step
consumes at least one character. -/
def removeMarkerF (marker : List Char) : Nat → List Char → List Char
  | 0, cs => cs
  | _ + 1, [] => []
  | fuel + 1, c :: cs =>
    match dropExact marker (c :: cs) with
    | some rest =>
      match rest with
      | [] => []
      | nl :: r =>
        if nl = Char.ofNat 10 then removeMarkerF marker fuel r
        else removeMarkerF marker fuel rest
    | none => c :: removeMarkerF marker fuel cs

/-- The pattern of the first fence regex: three backticks then `json`. -/
def fenceJsonMarker : List Char :=
  [backtickChar, backtickChar, backtickChar, 'j', 's', 'o', 'n']

/-- The pattern of the second fence regex: three backticks. -/
def fenceMarker : List Char := [backtickChar, backtickChar, backtickChar]

def trimChars (cs : List Char) : List Char :=
  ((cs.dropWhile isJsWs).reverse.dropWhile isJsWs).reverse

/-- The `cleaned` preprocessing of `tryParseJSON`: strip the two fence
patterns globally, then trim. -/
def stripFences (s : String) : String :=
  let a := removeMarkerF fenceJsonMarker (s.data.length + 1) s.data
  let b := removeMarkerF fenceMarker (a.length + 1) a
  String.mk (trimChars b)

/-- First index of a character in a list, if any. -/
def idxOf? (t : Char) : List Char → Option Nat
  | [] => none
  | c :: cs =>
    if c = t then some 0
    else match idxOf? t cs with
      | some i => some (i + 1)
      | none => none

/-- Last index of a character in a list, if any. -/
def lastIdxOf? (t : Char) (cs : List Char) : Option Nat :=
  match idxOf? t cs.reverse with
  | some i => some (cs.length - 1 - i)
  | none => none

/-- The brace-extraction step: `indexOf(LB)` / `lastIndexOf(RB)`, guarded by
`jsonStart !== -1 && jsonEnd !== -1 && jsonEnd > jsonStart`, then
`substring(jsonStart, jsonEnd + 1)`. -/
def braceSubstring (cs : List Char) : Option (List Char) :=
  match idxOf? lbraceChar cs, lastIdxOf? rbraceChar cs with
  | some i, some j => if i < j then some ((cs.drop i).take (j - i + 1)) else none
  | _, _ => none

/-- Global replacement of `,\s*([\]RB])` with the captured closer: a comma
followed by whitespace and a closing bracket or brace loses the comma and the
whitespace.  Scanning resumes after the closer, per regex `lastIndex`. -/
def stripCommasF : Nat → List Char → List Char
  | 0, cs => cs
  | _ + 1, [] => []
  | fuel + 1, c :: cs =>
    if c = ',' then
      match cs.dropWhile isJsWs with
      | d :: r =>
        if d = ']' || d = rbraceChar then d :: stripCommasF fuel r
        else c :: stripCommasF fuel cs
      | [] => c :: stripCommasF fuel cs
    else c :: stripCommasF fuel cs

def stripTrailingCommas (s : String) : String :=
  String.mk (stripCommasF (s.data.length + 1) s.data)

/-- `tryParseJSON` itself, mirroring the source control flow: direct parse of
the fence-stripped text; on failure the brace substring (when the index guard
holds); on failure of either, the trailing-comma-stripped cleaned text; `null`
(here `none`) when everything fails.  All parse exceptions of the source are
local `try/catch`es, so the function is total. -/
def tryParseJSON (content : String) : Option Json :=
  let cleaned := stripFences content
  match jsonParse cleaned with
  | some o => some o
  | none =>
    let braceAttempt : Option Json :=
      match braceSubstring cleaned.data with
      | some sub => jsonParse (String.mk sub)
      | none => none
    match braceAttempt with
    | some o => some o
    | none => jsonParse (stripTrailingCommas cleaned)

/-- Stage (1) of the spec's recovery chain: fence-strip then direct parse. -/
def directParse (s : String) : Option Json := jsonParse (stripFences s)

/-- Stage (2): parse the first-`LB`-to-last-`RB` substring of the cleaned text. -/
def braceExtractParse (s : String) : Option Json :=
  match braceSubstring (stripFences s).data with
  | some sub => jsonParse (String.mk sub)
  | none => none

/-- Stage (3): strip trailing commas from the cleaned text and parse. -/
def commaFixParse (s : String) : Option Json :=
  jsonParse (stripTrailingCommas (stripFences s))

/-! ### The `audit-design` request handler
(`supabase/functions/audit-design/index.ts`, the `serve` callback).

The handler's inputs are the request body fields and an environment:
the `LOVABLE_API_KEY` variable, the outcome of the `HEAD` pre-check on
`imageUrl`, and the AI gateway's response (status plus, on success, the
message content already projected through
`data.choices?.[0]?.message?.content || ""`).  Every outgoing network request
(the `HEAD` image check, the chat-completion `POST`) is recorded in an event
trace.  JavaScript truthiness tests on the string fields (`!imageBase64`,
`imageBase64 ? ... : ...`) are modelled by `truthy`, under which an absent
field and the empty string coincide, exactly as in the source.

The system-prompt construction (rules corpus, persona table, fidelity,
purpose, screen name) only affects the prompt text sent to the model; no
claim depends on it, so the prompt string is not modelled.  The missing-key
`throw` is caught by the handler's outer `catch`, which returns a 500
`{error: e.message}` payload; the model returns that payload directly. -/

/-- JavaScript truthiness of an optional string field. -/
def truthy : Option String → Bool
  | none => false
  | some s => !s.isEmpty

structure AuditRequest where
  imageBase64 : Option String
  imageUrl : Option String
  personaId : Option String
deriving Repr

inductive ImageContent where
  | base64 (dataUrl : String)
  | url (u : String)
deriving Repr, DecidableEq

/-- Network events issued by the `audit-design` handler. -/
inductive AEvent where
  | headCheck (url : String)
  | modelCall (img : ImageContent)
deriving Repr, DecidableEq

/-- Outcome of `fetch(imageUrl, { method: "HEAD" })`: a response with
`ok` true, a response with `ok` false, or a thrown fetch error (which the
source swallows and continues). -/
inductive HeadOutcome where
  | ok
  | notOk
  | threw
deriving Repr, DecidableEq

structure AuditEnv where
  apiKey : Option String
  head : HeadOutcome
  modelStatus : Nat
  modelContent : String

/-- The handler's result: an error payload with HTTP status, or a 200
success payload carrying a JSON body. -/
inductive AuditOutcome where
  | err (status : Nat) (msg : String)
  | ok (body : Json)
deriving Repr

def isOkStatus (n : Nat) : Bool := 200 ≤ n && n < 300

/-- The fallback body returned when the sanitizer fails
(lines 338-346 of `audit-design/index.ts`). -/
def auditFallback : Json :=
  .obj [("overallScore", .num "0"),
        ("summary", .str "The AI analysis could not be completed for this screen. Please try again."),
        ("riskLevel", .str "High"),
        ("categories", .arr [])]

def dataUrlOfBase64 (b : String) : String := "data:image/png;base64," ++ b

/-- The phase of the handler after validation and the `HEAD` pre-check:
credential check, model call, status triage, sanitize-or-fallback. -/
def auditModelPhase (req : AuditRequest) (env : AuditEnv) (evs : List AEvent) :
    List AEvent × AuditOutcome :=
  match env.apiKey with
  | none => (evs, .err 500 "LOVABLE_API_KEY is not configured")
  | some _ =>
    let img :=
      if truthy req.imageBase64 then
        ImageContent.base64 (dataUrlOfBase64 (req.imageBase64.getD ""))
      else ImageContent.url (req.imageUrl.getD "")
    let evs2 := evs ++ [AEvent.modelCall img]
    if isOkStatus env.modelStatus then
      match tryParseJSON env.modelContent with
      | some j => (evs2, .ok j)
      | none => (evs2, .ok auditFallback)
    else if env.modelStatus = 429 then
      (evs2, .err 429 "Rate limit exceeded. Please try again in a moment.")
    else if env.modelStatus = 402 then
      (evs2, .err 402 "AI credits exhausted. Please add funds in Settings → Workspace → Usage.")
    else (evs2, .err 500 "AI analysis failed")

/-- The `serve` callback of `audit-design/index.ts`: input validation, the
`imageUrl` accessibility `HEAD` pre-check, then the model phase. -/
def auditDesignServe (req : AuditRequest) (env : AuditEnv) :
    List AEvent × AuditOutcome :=
  if !truthy req.imageBase64 && !truthy req.imageUrl then
    ([], .err 400 "Either imageBase64 or imageUrl is required")
  else if !truthy req.personaId then
    ([], .err 400 "personaId is required")
  else if truthy req.imageUrl then
    let u := req.imageUrl.getD ""
    match env.head with
    | .notOk =>
      ([AEvent.headCheck u],
       .err 400 "Design image is no longer accessible. Figma image URLs may have expired. Please re-extract the frames.")
    | _ => auditModelPhase req env [AEvent.headCheck u]
  else auditModelPhase req env []

/-! ### The frame extractor
(`supabase/functions/fetch-figma-frames/index.ts`, `extractFrames`). -/

/-- A node of the Figma file tree (`FigmaNode`): `{ id, name, type, children? }`.
An absent `children` array is modelled as the empty list; the source treats
the two identically (both branches of `extractFrames` do nothing on an empty
or absent child list). -/
inductive DesignNode where
  | node (id name ty : String) (children : List DesignNode)
deriving Repr

def DesignNode.id : DesignNode → String
  | .node i _ _ _ => i

def DesignNode.name : DesignNode → String
  | .node _ n _ _ => n

def DesignNode.ty : DesignNode → String
  | .node _ _ t _ => t

def DesignNode.children : DesignNode → List DesignNode
  | .node _ _ _ cs => cs

/-- Extracted frame descriptor `{ id, name }` produced by `extractFrames`. -/
structure ExtFrame where
  id : String
  name : String
deriving Repr, DecidableEq

/-- The test on a child's `type` in the CANVAS branch of `extractFrames`:
FRAME, COMPONENT, COMPONENT_SET or SECTION. -/
def exportableType (t : String) : Bool :=
  t = "FRAME" || t = "COMPONENT" || t = "COMPONENT_SET" || t = "SECTION"

mutual

/-- `extractFrames`: for a CANVAS node, push the direct children of an
exportable type; otherwise recurse into every child, depth first, in
document order. -/
def extractFrames : DesignNode → List ExtFrame
  | .node _ _ t cs =>
    if t = "CANVAS" then collectExportable cs
    else extractFramesList cs

/-- The loop of the CANVAS branch of `extractFrames`: walk the direct
children in order and keep `{ id, name }` of those with an exportable type. -/
def collectExportable : List DesignNode → List ExtFrame
  | [] => []
  | c :: cs =>
    if exportableType c.ty then ⟨c.id, c.name⟩ :: collectExportable cs
    else collectExportable cs

/-- The loop of the non-CANVAS branch of `extractFrames`: concatenate the
recursive results over the children in order. -/
def extractFramesList : List DesignNode → List ExtFrame
  | [] => []
  | c :: cs => extractFrames c ++ extractFramesList cs

end

/-! ### The HTTP retry client
(`supabase/functions/fetch-figma-frames/index.ts`, `fetchWithRetry`).

```ts
async function fetchWithRetry(url, headers, maxRetries = 3) {
  for (let attempt = 0; attempt <= maxRetries; attempt++) {
    const response = await fetch(url, { headers });
    if (response.status === 429) {
      if (attempt < maxRetries) {
        const waitMs = Math.pow(2, attempt + 1) * 1000;
        await delay(waitMs);
        continue;
      }
    }
    return response;
  }
  return await fetch(url, { headers });
}
```

The network is modelled as a function from the attempt index to the response
observed on that attempt.  The result pairs the returned response with the
total number of milliseconds spent in `delay` calls.  The trailing
`return await fetch(...)` after the loop is unreachable (the loop body always
returns on the final attempt) and therefore has no counterpart. -/

structure HttpResponse where
  status : Nat
deriving Repr, DecidableEq

/-- `Math.pow(2, attempt + 1) * 1000`. -/
def backoffMs (attempt : Nat) : Nat := 2 ^ (attempt + 1) * 1000

/-- The retry loop.  `left` is `maxRetries - attempt`, so `left = 0` means the
final attempt, on which the response is returned even when it is a 429. -/
def fetchRetryAux (env : Nat → HttpResponse) : Nat → Nat → Nat → HttpResponse × Nat
  | 0, attempt, waited => (env attempt, waited)
  | left + 1, attempt, waited =>
    let r := env attempt
    if r.status = 429 then
      fetchRetryAux env left (attempt + 1) (waited + backoffMs attempt)
    else (r, waited)

def fetchWithRetry (env : Nat → HttpResponse) (maxRetries : Nat) :
    HttpResponse × Nat :=
  fetchRetryAux env maxRetries 0 0

/-- Sum of the computed backoff intervals over the first `k` attempts. -/
def totalBackoff (k : Nat) : Nat := ((List.range k).map backoffMs).sum

/-! ### The `fetch-figma-frames` request handler
(`supabase/functions/fetch-figma-frames/index.ts`, the `serve` callback).

Environment: the `FIGMA_ACCESS_TOKEN` variable, the file-tree fetch outcome
(HTTP status, and on success the file name and the `document`'s child pages),
and the image-export outcomes (status of the single-shot request and, for the
batch fallback, status and images per batch index).  Resolved image maps are
modelled as lookup functions `String → Option String`; an absent id, a `null`
URL and an empty-string URL all collapse to `none`, exactly as the source's
`allImages[frame.id] || null` does.  Statuses of `fetchWithRetry`d requests
are the final statuses after its internal retries.  `delay` calls carry no
observable state and are not modelled as events. -/

inductive FigmaEvent where
  | fileFetch (fileKey : String)
  | imageExport (fileKey : String) (ids : List String)
deriving Repr, DecidableEq

/-- Enriched, exported frame descriptor `{ id, name, nodeId, imageUrl }`. -/
structure ExpFrame where
  id : String
  name : String
  nodeId : String
  imageUrl : Option String
deriving Repr, DecidableEq

structure FigmaResponse where
  fileName : String
  fileKey : String
  frames : List ExpFrame
  totalFrames : Nat
  exportedFrames : Nat
deriving Repr, DecidableEq

inductive FigmaOutcome where
  | err (status : Nat) (msg : String)
  | ok (resp : FigmaResponse)
deriving Repr, DecidableEq

structure FigmaEnv where
  token : Option String
  fileStatus : Nat
  fileName : Option String
  pages : List DesignNode
  singleStatus : Nat
  singleImages : String → Option String
  batchStatus : Nat → Nat
  batchImages : Nat → String → Option String

/-- Result of `parseFigmaUrl`.  The source matches the regex
`figma\.com\/(?:file|design)\/([a-zA-Z0-9]+)` and, on a match, runs
`new URL(url)` to read the optional `node-id` query parameter.  `nodeId` is
never used downstream (only `fileKey` is), so it is not modelled; but
`new URL` throws on scheme-less input, escaping `parseFigmaUrl` into the
handler's outer `catch`, and that path is modelled by `threw`.  Scheme
detection (`alpha (alnum|+|-|.)* :`) is the discriminator; full WHATWG URL
validation is not reproduced. -/
inductive UrlParse where
  | noMatch
  | threw
  | okKey (fileKey : String)
deriving Repr, DecidableEq

/-- `[a-zA-Z0-9]`, as in the regex capture group. -/
def isAlnum (c : Char) : Bool := c.isAlpha || c.isDigit

/-- Try to match `figma.com/file/` or `figma.com/design/` at the head and
return the greedy nonempty alphanumeric run after it. -/
def figmaKeyAt (cs : List Char) : Option String :=
  let after : Option (List Char) :=
    match dropExact "figma.com/file/".data cs with
    | some rest => some rest
    | none => dropExact "figma.com/design/".data cs
  match after with
  | some rest =>
    let ds := rest.takeWhile isAlnum
    if ds.isEmpty then none else some (String.mk ds)
  | none => none

/-- Scan for the earliest regex match, as `String.prototype.match` does. -/
def findFigmaKey : List Char → Option String
  | [] => none
  | c :: cs =>
    match figmaKeyAt (c :: cs) with
    | some k => some k
    | none => findFigmaKey cs

def schemeChar (c : Char) : Bool :=
  isAlnum c || c = '+' || c = '-' || c = '.'

/-- Does the string start with a URL scheme (`alpha (alnum|+|-|.)* :`)?
`new URL` requires one to succeed without a base. -/
def hasScheme (cs : List Char) : Bool :=
  match cs with
  | [] => false
  | c :: _ =>
    c.isAlpha &&
      match cs.dropWhile schemeChar with
      | d :: _ => d = ':'
      | [] => false

def parseFigmaUrlModel (url : String) : UrlParse :=
  match findFigmaKey url.data with
  | none => .noMatch
  | some k => if hasScheme url.data then .okKey k else .threw

/-- `fileData.name || "Untitled"`. -/
def fileNameOf (o : Option String) : String :=
  match o with
  | some s => if s.isEmpty then "Untitled" else s
  | none => "Untitled"

def rateLimitMsg : String :=
  "Figma API rate limit reached. Please wait a minute and try again."

/-- The enrichment of one capped frame descriptor during response assembly:
`{ id, name, nodeId: id, imageUrl: allImages[frame.id] || null }`. -/
def enrichFrame (images : String → Option String) (f : ExtFrame) : ExpFrame :=
  ⟨f.id, f.name, f.id, images f.id⟩

/-- The cap on exported frames: `allFrames.slice(0, 12)`. -/
def FRAME_CAP : Nat := 12

/-- Response assembly (step 4 of the handler): enrich the capped frame list,
drop the descriptors whose URL never resolved, and report the pre-cap total
alongside the post-filter count. -/
def buildFigmaResponse (fileName fileKey : String) (allFrames : List ExtFrame)
    (images : String → Option String) : FigmaResponse :=
  let frames :=
    ((allFrames.take FRAME_CAP).map (enrichFrame images)).filter
      (fun f => f.imageUrl.isSome)
  ⟨fileName, fileKey, frames, allFrames.length, frames.length⟩

/-- `Object.assign(allImages, batchData.images)`: keys of the new batch
override earlier entries. -/
def mergeImages (newer older : String → Option String) : String → Option String :=
  fun k =>
    match newer k with
    | some v => some v
    | none => older k

/-- The `for (let i = 0; i < framesToExport.length; i += BATCH_SIZE)` grouping
with `BATCH_SIZE = 4`.  Fuel dominates the list length. -/
def chunks4F : Nat → List ExtFrame → List (List ExtFrame)
  | 0, _ => []
  | _ + 1, [] => []
  | fuel + 1, l => l.take 4 :: chunks4F fuel (l.drop 4)

def chunks4 (l : List ExtFrame) : List (List ExtFrame) := chunks4F (l.length + 1) l

/-- The batch-fallback loop: per batch, an export request event; an OK batch
merges its images, a 429 aborts the whole handler with the rate-limit error,
any other failure skips the batch and continues. -/
def runBatches (env : FigmaEnv) (fileKey : String) :
    List (List ExtFrame) → Nat → (String → Option String) → List FigmaEvent →
    List FigmaEvent × Except (Nat × String) (String → Option String)
  | [], _, images, evs => (evs, .ok images)
  | batch :: rest, bIdx, images, evs =>
    let evs2 := evs ++ [FigmaEvent.imageExport fileKey (batch.map (·.id))]
    let st := env.batchStatus bIdx
    if isOkStatus st then
      runBatches env fileKey rest (bIdx + 1)
        (mergeImages (env.batchImages bIdx) images) evs2
    else if st = 429 then (evs2, .error (429, rateLimitMsg))
    else runBatches env fileKey rest (bIdx + 1) images evs2

/-- The `serve` callback of `fetch-figma-frames/index.ts`: validation and
configuration checks, file-tree fetch with its status triage, extraction over
all pages, the empty-extraction error, the 12-frame cap, the single-shot
export with batch fallback, and response assembly. -/
def figmaServe (figmaUrl : Option String) (env : FigmaEnv) :
    List FigmaEvent × FigmaOutcome :=
  if !truthy figmaUrl then ([], .err 400 "figmaUrl is required")
  else
    match env.token with
    | none =>
      ([], .err 500 "FIGMA_ACCESS_TOKEN is not configured. Please add your Figma token.")
    | some _ =>
      match parseFigmaUrlModel (figmaUrl.getD "") with
      | .noMatch =>
        ([], .err 400 "Invalid Figma URL. Please provide a valid Figma file or design link.")
      | .threw => ([], .err 500 ("Invalid URL: " ++ figmaUrl.getD ""))
      | .okKey fileKey =>
        let evs0 := [FigmaEvent.fileFetch fileKey]
        if isOkStatus env.fileStatus then
          let fileName := fileNameOf env.fileName
          let allFrames := extractFramesList env.pages
          if allFrames.isEmpty then
            (evs0, .err 400 "No frames found in this Figma file.")
          else
            let framesToExport := allFrames.take FRAME_CAP
            let evs1 := evs0 ++ [FigmaEvent.imageExport fileKey (framesToExport.map (·.id))]
            if isOkStatus env.singleStatus then
              (evs1, .ok (buildFigmaResponse fileName fileKey allFrames env.singleImages))
            else if env.singleStatus = 429 then (evs1, .err 429 rateLimitMsg)
            else
              match runBatches env fileKey (chunks4 framesToExport) 0 (fun _ => none) evs1 with
              | (evs2, .error e) => (evs2, .err e.1 e.2)
              | (evs2, .ok images) =>
                (evs2, .ok (buildFigmaResponse fileName fileKey allFrames images))
        else if env.fileStatus = 403 then
          (evs0, .err 403 "Access denied. Make sure your Figma token has access to this file.")
        else if env.fileStatus = 429 then (evs0, .err 429 rateLimitMsg)
        else (evs0, .err 500 ("Figma API error: " ++ toString env.fileStatus))

/-! ### The client-side wrapper `useFigmaFrames.fetchFrames`
(`src/hooks/useFigmaFrames.ts`).  On a success payload it keeps only frames
whose `imageUrl` starts with `http` and treats an empty remainder as the
failed-export error; an error payload from the edge function is surfaced as
its message. -/

def clientValidFrames (frames : List ExpFrame) : List ExpFrame :=
  frames.filter fun f =>
    match f.imageUrl with
    | some u => u.startsWith "http"
    | none => false

def noValidFramesMsg : String :=
  "No valid frames could be exported. Try a different Figma file."

def fetchFramesClient (out : FigmaOutcome) : Except String (String × List ExpFrame) :=
  match out with
  | .err _ msg => .error msg
  | .ok r =>
    let valid := clientValidFrames r.frames
    if valid.isEmpty then .error noValidFramesMsg
    else .ok (r.fileName, valid)

/-! ### The bounded-concurrency dispatcher
(`src/hooks/useFigmaFrames.ts`, `runWithConcurrency` and
`runMultiScreenAudit`).

```ts
async function runWithConcurrency(tasks, concurrency) {
  const results = new Array(tasks.length);
  let nextIndex = 0;
  async function worker() {
    while (nextIndex < tasks.length) {
      const index = nextIndex++;
      results[index] = await tasks[index]();
    }
  }
  const workers = Array.from({ length: Math.min(concurrency, tasks.length) }, () => worker());
  await Promise.all(workers);
  return results;
}
```

The check `nextIndex < tasks.length` and the post-increment `nextIndex++`
run in one synchronous segment of a single-threaded event loop, so the claim
of an index is atomic; the only suspension point is the `await` of the task.
We model the run as a small-step transition system over the worker pool: a
scheduler repeatedly picks a worker, which either atomically claims the next
index (when one remains), retires (when indices are exhausted), or finishes
its claimed task, at which point the task's callback fires and the emission
is recorded.  Every interleaving of the real event loop is one schedule of
this system (the real loop is more deterministic — each spawned worker runs
synchronously up to its first `await` — so proving a property of all
schedules covers it).

`auditOneScreen` in `runMultiScreenAudit` settles each task by invoking
`onScreenComplete(index, payload)` exactly when the underlying audit call
settles: the payload carries the frame's name and image URL together with
either `result: data` (success) or `result: null, error: message` (any thrown
error, including an `{error}` payload from the endpoint).  The endpoint's
behaviour for frame `i` is abstracted as `outcome i : Except String Json`.
The payload literals in the source set no `isLoading` field, so none is
modelled. -/

structure FigmaFrame where
  name : String
  imageUrl : Option String
deriving Repr

structure ScreenAuditResult where
  screenName : String
  screenImageUrl : Option String
  result : Option Json
  error : Option String
deriving Repr

def CONCURRENCY : Nat := 3

/-- The settled callback payload of `auditOneScreen` for one frame, as a
function of the frame and of how its audit settles. -/
def auditOneScreen (frame : FigmaFrame) (outcome : Except String Json) :
    ScreenAuditResult :=
  match outcome with
  | .ok j => ⟨frame.name, frame.imageUrl, some j, none⟩
  | .error m => ⟨frame.name, frame.imageUrl, none, some m⟩

/-- The task array built by `runMultiScreenAudit`:
`tasks = frames.map((frame, index) => auditOneScreen(frame, index))`. -/
def screenTask (frames : List FigmaFrame) (outcome : Nat → Except String Json)
    (i : Nat) : ScreenAuditResult :=
  auditOneScreen (frames.getD i ⟨"", none⟩) (outcome i)

/-- Phase of one worker: between claims, awaiting the task of a claimed
index, or retired after observing `nextIndex ≥ tasks.length`. -/
inductive WPhase where
  | idle
  | running (i : Nat)
  | finished
deriving Repr, DecidableEq

/-- Shared state of a dispatcher run: the `nextIndex` counter, the worker
pool, and the log of callback invocations `(worker, index, payload)` in the
order they fired. -/
structure DState (α : Type) where
  next : Nat
  workers : List WPhase
  emitted : List (Nat × Nat × α)

/-- One scheduler step of the dispatcher with `n` tasks whose settled
payloads are given by `task`. -/
inductive DStep (n : Nat) (task : Nat → α) : DState α → DState α → Prop where
  | claim (s : DState α) (k : Nat) (h : s.workers[k]? = some WPhase.idle)
      (hn : s.next < n) :
      DStep n task s
        ⟨s.next + 1, s.workers.set k (WPhase.running s.next), s.emitted⟩
  | exhaust (s : DState α) (k : Nat) (h : s.workers[k]? = some WPhase.idle)
      (hn : n ≤ s.next) :
      DStep n task s ⟨s.next, s.workers.set k WPhase.finished, s.emitted⟩
  | complete (s : DState α) (k i : Nat)
      (h : s.workers[k]? = some (WPhase.running i)) :
      DStep n task s
        ⟨s.next, s.workers.set k WPhase.idle, s.emitted ++ [(k, i, task i)]⟩

/-- Reachability under scheduler steps. -/
def DReach (n : Nat) (task : Nat → α) : DState α → DState α → Prop :=
  Relation.ReflTransGen (DStep n task)

/-- Initial state with `W` spawned workers
(`W = Math.min(concurrency, tasks.length)` in the source). -/
def dispatchInit (W : Nat) : DState α := ⟨0, List.replicate W WPhase.idle, []⟩

/-- A run is over when every worker has retired. -/
def Terminal (s : DState α) : Prop := ∀ p ∈ s.workers, p = WPhase.finished

instance (s : DState α) : Decidable (Terminal s) :=
  inferInstanceAs (Decidable (∀ p ∈ s.workers, p = WPhase.finished))

/-- Indices currently claimed by awaiting workers. -/
def runningIdx (ws : List WPhase) : List Nat :=
  ws.filterMap fun p =>
    match p with
    | WPhase.running i => some i
    | _ => none

/-- Executable form of one scheduler step, for exhibiting concrete runs. -/
def stepFn (n : Nat) (task : Nat → α) (k : Nat) (s : DState α) :
    Option (DState α) :=
  match s.workers[k]? with
  | some WPhase.idle =>
    if s.next < n then
      some ⟨s.next + 1, s.workers.set k (WPhase.running s.next), s.emitted⟩
    else some ⟨s.next, s.workers.set k WPhase.finished, s.emitted⟩
  | some (WPhase.running i) =>
    some ⟨s.next, s.workers.set k WPhase.idle, s.emitted ++ [(k, i, task i)]⟩
  | _ => none

/-- Run a concrete schedule (a list of worker picks). -/
def runSched (n : Nat) (task : Nat → α) : List Nat → DState α → DState α
  | [], s => s
  | k :: ks, s =>
    match stepFn n task k s with
    | some s2 => runSched n task ks s2
    | none => runSched n task ks s

/-! #### Dispatcher lemmas: the claimed-index bookkeeping. -/

theorem runningIdx_nil : runningIdx [] = [] := rfl

theorem runningIdx_cons (p : WPhase) (ws : List WPhase) :
    runningIdx (p :: ws) =
      (match p with
       | WPhase.running i => some i
       | _ => none).toList ++ runningIdx ws := by
  cases p <;> simp [runningIdx, List.filterMap_cons]

theorem runningIdx_set_running {ws : List WPhase} {k j : Nat}
    (h : ws[k]? = some WPhase.idle) :
    (runningIdx (ws.set k (WPhase.running j))).Perm (j :: runningIdx ws) := by
  induction ws generalizing k with
  | nil => simp at h
  | cons p t ih =>
    cases k with
    | zero =>
      simp at h
      subst h
      simp [List.set, runningIdx, List.filterMap_cons]
    | succ k =>
      simp only [List.getElem?_cons_succ] at h
      have := ih h
      cases p with
      | idle =>
        simpa [List.set, runningIdx_cons] using this
      | finished =>
        simpa [List.set, runningIdx_cons] using this
      | running i =>
        simp only [List.set, runningIdx_cons, Option.toList]
        exact ((this.cons i).trans (List.Perm.swap j i _))

theorem runningIdx_set_finished {ws : List WPhase} {k : Nat}
    (h : ws[k]? = some WPhase.idle) :
    runningIdx (ws.set k WPhase.finished) = runningIdx ws := by
  induction ws generalizing k with
  | nil => simp at h
  | cons p t ih =>
    cases k with
    | zero =>
      simp at h
      subst h
      simp [List.set, runningIdx_cons]
    | succ k =>
      simp only [List.getElem?_cons_succ] at h
      cases p <;> simp [List.set, runningIdx_cons, ih h]

theorem runningIdx_set_idle {ws : List WPhase} {k i : Nat}
    (h : ws[k]? = some (WPhase.running i)) :
    (runningIdx ws).Perm (i :: runningIdx (ws.set k WPhase.idle)) := by
  induction ws generalizing k with
  | nil => simp at h
  | cons p t ih =>
    cases k with
    | zero =>
      simp at h
      subst h
      simp [List.set, runningIdx_cons]
    | succ k =>
      simp only [List.getElem?_cons_succ] at h
      have := ih h
      cases p with
      | idle => simpa [List.set, runningIdx_cons] using this
      | finished => simpa [List.set, runningIdx_cons] using this
      | running m =>
        simp only [List.set, runningIdx_cons, Option.toList]
        exact (this.cons m).trans (List.Perm.swap i m _)

theorem runningIdx_replicate_idle (W : Nat) :
    runningIdx (List.replicate W WPhase.idle) = [] := by
  induction W with
  | zero => rfl
  | succ W ih => simpa [List.replicate, runningIdx_cons] using ih

theorem runningIdx_of_terminal {ws : List WPhase}
    (h : ∀ p ∈ ws, p = WPhase.finished) : runningIdx ws = [] := by
  induction ws with
  | nil => rfl
  | cons p t ih =>
    have hp := h p (List.mem_cons_self p t)
    subst hp
    exact (by simpa [runningIdx_cons] using ih (fun q hq => h q (List.mem_cons_of_mem _ hq)))

/-- The run invariant: the emitted indices, the currently claimed indices and
the unclaimed range `[next, n)` together form a permutation of `[0, n)`;
the counter never passes `n`; a fully retired pool implies the counter is
exhausted; every emitted payload is its index's task payload. -/
structure DInv (n : Nat) (task : Nat → α) (s : DState α) : Prop where
  next_le : s.next ≤ n
  perm : ((s.emitted.map fun e => e.2.1) ++ runningIdx s.workers ++
      List.range' s.next (n - s.next)).Perm (List.range n)
  fin_next : (∀ p ∈ s.workers, p = WPhase.finished) → n ≤ s.next
  payload : ∀ e ∈ s.emitted, e.2.2 = task e.2.1

theorem DInv.init {n W : Nat} (task : Nat → α) (hW : n = 0 ∨ 1 ≤ W) :
    DInv n task (dispatchInit W) := by
  refine ⟨Nat.zero_le n, ?_, ?_, by simp [dispatchInit]⟩
  · simp [dispatchInit, runningIdx_replicate_idle]
    rw [← List.range_eq_range']
  · intro hall
    rcases hW with h0 | hW
    · omega
    · exfalso
      have : WPhase.idle ∈ List.replicate W WPhase.idle := by
        simp [List.mem_replicate]
        omega
      have := hall _ this
      simp at this

theorem DInv.step {n : Nat} {task : Nat → α} {s s2 : DState α}
    (hstep : DStep n task s s2) (hinv : DInv n task s) : DInv n task s2 := by
  obtain ⟨hle, hperm, hfin, hpay⟩ := hinv
  cases hstep with
  | claim k h hn =>
    have hk : k < s.workers.length := by
      rcases List.getElem?_eq_some_iff.mp h with ⟨hk, _⟩
      exact hk
    refine ⟨hn, ?_, ?_, hpay⟩
    · have hrng : List.range' s.next (n - s.next) =
          s.next :: List.range' (s.next + 1) (n - (s.next + 1)) := by
        have : n - s.next = (n - (s.next + 1)) + 1 := by omega
        rw [this, List.range'_succ]
      have hR := runningIdx_set_running (j := s.next) h
      have base := hperm
      rw [hrng] at base
      refine List.Perm.trans ?_ base
      have h1 : (runningIdx (s.workers.set k (WPhase.running s.next)) ++
          List.range' (s.next + 1) (n - (s.next + 1))).Perm
          (runningIdx s.workers ++
            s.next :: List.range' (s.next + 1) (n - (s.next + 1))) :=
        (hR.append_right _).trans List.perm_middle.symm
      simp only [List.append_assoc]
      exact List.Perm.append_left _ h1
    · intro hall
      exfalso
      have hmem : WPhase.running s.next ∈ s.workers.set k (WPhase.running s.next) := by
        have hk2 : k < (s.workers.set k (WPhase.running s.next)).length := by
          simpa using hk
        have h1 := List.getElem_set_self (l := s.workers) (i := k)
          (a := WPhase.running s.next) hk2
        have h2 := List.getElem_mem hk2
        rwa [h1] at h2
      have := hall _ hmem
      simp at this
  | exhaust k h hn =>
    refine ⟨hle, ?_, fun _ => hn, hpay⟩
    rwa [runningIdx_set_finished h]
  | complete k i h =>
    have hR := runningIdx_set_idle h
    refine ⟨hle, ?_, ?_, ?_⟩
    · have : ((s.emitted ++ [(k, i, task i)]).map fun e => e.2.1) ++
          runningIdx (s.workers.set k WPhase.idle) ++
          List.range' s.next (n - s.next) =
          (s.emitted.map fun e => e.2.1) ++
          (i :: runningIdx (s.workers.set k WPhase.idle)) ++
          List.range' s.next (n - s.next) := by
        simp
      rw [this]
      refine List.Perm.trans ?_ hperm
      have h1 : ((i :: runningIdx (s.workers.set k WPhase.idle)) ++
          List.range' s.next (n - s.next)).Perm
          (runningIdx s.workers ++ List.range' s.next (n - s.next)) :=
        hR.symm.append_right _
      simp only [List.append_assoc]
      exact List.Perm.append_left _ h1
    · intro hall
      exfalso
      have hk : k < s.workers.length := by
        rcases List.getElem?_eq_some_iff.mp h with ⟨hk, _⟩
        exact hk
      have hk2 : k < (s.workers.set k WPhase.idle).length := by simpa using hk
      have hmem : WPhase.idle ∈ s.workers.set k WPhase.idle := by
        have h1 := List.getElem_set_self (l := s.workers) (i := k)
          (a := WPhase.idle) hk2
        have h2 := List.getElem_mem hk2
        rwa [h1] at h2
      have := hall _ hmem
      simp at this
    · intro e he
      rcases List.mem_append.mp he with h1 | h1
      · exact hpay e h1
      · simp at h1
        subst h1
        rfl

theorem DInv.reach {n : Nat} {task : Nat → α} {s s2 : DState α}
    (hr : DReach n task s s2) (hinv : DInv n task s) : DInv n task s2 := by
  induction hr with
  | refl => exact hinv
  | tail _ hstep ih => exact DInv.step hstep ih

/-- At a terminal state of a run started with `min C n` workers (`C ≥ 1`),
the emitted indices are a permutation of `0..n-1` and every payload is the
task payload of its index. -/
theorem dispatch_terminal_spec {n C : Nat} {task : Nat → α} (hC : 1 ≤ C)
    {s : DState α} (hr : DReach n task (dispatchInit (min C n)) s)
    (ht : Terminal s) :
    ((s.emitted.map fun e => e.2.1).Perm (List.range n)) ∧
      ∀ e ∈ s.emitted, e.2.2 = task e.2.1 := by
  have hinv : DInv n task s := by
    refine DInv.reach hr (DInv.init task ?_)
    rcases Nat.eq_zero_or_pos n with h0 | hpos
    · exact Or.inl h0
    · exact Or.inr (by omega)
  obtain ⟨hle, hperm, hfin, hpay⟩ := hinv
  have hnext : s.next = n := le_antisymm hle (hfin ht)
  have hrun : runningIdx s.workers = [] := runningIdx_of_terminal ht
  rw [hrun, hnext] at hperm
  simp at hperm
  exact ⟨hperm, hpay⟩

/-- Weight of a worker phase for the termination measure: a worker still to
retire contributes, a claimed index contributes more (its completion passes
back through idle). -/
def wWeight : WPhase → Nat
  | WPhase.idle => 1
  | WPhase.running _ => 2
  | WPhase.finished => 0

/-- Termination measure of a dispatcher state. -/
def dMeasure (n : Nat) (s : DState α) : Nat :=
  3 * (n - s.next) + (s.workers.map wWeight).sum

theorem sum_wWeight_set {ws : List WPhase} {k : Nat} {p q : WPhase}
    (h : ws[k]? = some p) :
    ((ws.set k q).map wWeight).sum + wWeight p = (ws.map wWeight).sum + wWeight q := by
  induction ws generalizing k with
  | nil => simp at h
  | cons r t ih =>
    cases k with
    | zero =>
      simp at h
      subst h
      simp [List.set]
      omega
    | succ k =>
      simp only [List.getElem?_cons_succ] at h
      have hih := ih h
      simp only [List.set, List.map_cons, List.sum_cons]
      omega

/-- Every scheduler step strictly decreases the measure, so every schedule
terminates: the dispatcher cannot run forever. -/
theorem DStep.measure_lt {n : Nat} {task : Nat → α} {s s2 : DState α}
    (hstep : DStep n task s s2) : dMeasure n s2 < dMeasure n s := by
  cases hstep with
  | claim k h hn =>
    have hsum := sum_wWeight_set (q := WPhase.running s.next) h
    simp only [dMeasure, wWeight] at *
    omega
  | exhaust k h hn =>
    have hsum := sum_wWeight_set (q := WPhase.finished) h
    simp only [dMeasure, wWeight] at *
    omega
  | complete k i h =>
    have hsum := sum_wWeight_set (q := WPhase.idle) h
    simp only [dMeasure, wWeight] at *
    omega

/-- A non-terminal state can always step: the dispatcher never deadlocks. -/
theorem DStep.progress {n : Nat} (task : Nat → α) {s : DState α}
    (h : ¬ Terminal s) : ∃ s2, DStep n task s s2 := by
  unfold Terminal at h
  push_neg at h
  obtain ⟨p, hmem, hne⟩ := h
  obtain ⟨k, hk, hget⟩ := List.getElem_of_mem hmem
  have hk2 : s.workers[k]? = some p := by
    rw [List.getElem?_eq_some_iff]
    exact ⟨hk, hget⟩
  cases p with
  | idle =>
    by_cases hn : s.next < n
    · exact ⟨_, DStep.claim s k hk2 hn⟩
    · exact ⟨_, DStep.exhaust s k hk2 (by omega)⟩
  | running i => exact ⟨_, DStep.complete s k i hk2⟩
  | finished => exact absurd rfl hne

theorem stepFn_sound {n : Nat} {task : Nat → α} {k : Nat} {s s2 : DState α}
    (h : stepFn n task k s = some s2) : DStep n task s s2 := by
  unfold stepFn at h
  cases hw : s.workers[k]? with
  | none => rw [hw] at h; exact absurd h (by simp)
  | some p =>
    rw [hw] at h
    cases p with
    | idle =>
      by_cases hn : s.next < n
      · rw [if_pos hn] at h
        cases h
        exact DStep.claim s k hw hn
      · rw [if_neg hn] at h
        cases h
        exact DStep.exhaust s k hw (by omega)
    | running i =>
      cases h
      exact DStep.complete s k i hw
    | finished => exact absurd h (by simp)

theorem runSched_reach (n : Nat) (task : Nat → α) (ks : List Nat)
    (s : DState α) : DReach n task s (runSched n task ks s) := by
  induction ks generalizing s with
  | nil => exact Relation.ReflTransGen.refl
  | cons k ks ih =>
    unfold runSched
    cases hstep : stepFn n task k s with
    | none => exact ih s
    | some s2 =>
      exact Relation.ReflTransGen.head (stepFn_sound hstep) (ih s2)

/-! ## Claim C1: dispatcher completeness -/

/-- Claim C1.  Dispatcher completeness: for every list of input frames and
every audit outcome assignment, any terminal schedule of `runMultiScreenAudit`
(`CONCURRENCY = 3` workers, `min 3 N` spawned) has fired `onScreenComplete`
exactly `N` times — the emitted indices are a permutation of `0..N-1`, each
index is emitted exactly once and by exactly one worker (two emissions with
the same index coincide) — and each index's payload is its own frame's
settled result, regardless of per-item success or failure.  Moreover a
terminal state is always reached: a non-terminal state can step (no
deadlock), and every step strictly decreases a natural measure (no infinite
run). -/
theorem dispatcher_completeness :
    (∀ (frames : List FigmaFrame) (outcome : Nat → Except String Json)
      (s : DState ScreenAuditResult),
      DReach frames.length (screenTask frames outcome)
        (dispatchInit (min CONCURRENCY frames.length)) s →
      Terminal s →
      s.emitted.length = frames.length ∧
      ((s.emitted.map fun e => e.2.1).Perm (List.range frames.length)) ∧
      (∀ i, i < frames.length → (s.emitted.map fun e => e.2.1).count i = 1) ∧
      (∀ e ∈ s.emitted, ∀ e2 ∈ s.emitted, e.2.1 = e2.2.1 → e = e2) ∧
      (∀ e ∈ s.emitted, e.2.2 = screenTask frames outcome e.2.1)) ∧
    (∀ (frames : List FigmaFrame) (outcome : Nat → Except String Json)
      (s : DState ScreenAuditResult), ¬ Terminal s →
      ∃ s2, DStep frames.length (screenTask frames outcome) s s2) ∧
    (∀ (frames : List FigmaFrame) (outcome : Nat → Except String Json)
      (s s2 : DState ScreenAuditResult),
      DStep frames.length (screenTask frames outcome) s s2 →
      dMeasure frames.length s2 < dMeasure frames.length s) := by
  refine ⟨?_, ?_, ?_⟩
  · intro frames outcome s hr ht
    obtain ⟨hperm, hpay⟩ :=
      dispatch_terminal_spec (by decide : (1 : Nat) ≤ CONCURRENCY) hr ht
    refine ⟨by simpa using hperm.length_eq, hperm, ?_, ?_, hpay⟩
    · intro i hi
      rw [hperm.count_eq]
      exact List.count_eq_one_of_mem (List.nodup_range _) (List.mem_range.mpr hi)
    · intro e he e2 he2 heq
      have hnd : (s.emitted.map fun e => e.2.1).Nodup :=
        hperm.symm.nodup (List.nodup_range _)
      exact List.inj_on_of_nodup_map hnd he he2 heq
  · intro frames outcome s hnt
    exact DStep.progress _ hnt
  · intro frames outcome s s2 hstep
    exact hstep.measure_lt

/-- A concrete two-frame input for exercising the dispatcher. -/
def framesW : List FigmaFrame :=
  [⟨"Home", some "https://img.example/h.png"⟩,
   ⟨"Settings", some "https://img.example/s.png"⟩]

def outcomeW : Nat → Except String Json := fun i =>
  if i = 0 then .ok (.obj [("overallScore", .num "77")])
  else .error "Failed to audit screen"

/-- A terminal schedule for `framesW`: worker 0 drains both tasks, then both
workers observe exhaustion. -/
def witnessStateC1 : DState ScreenAuditResult :=
  runSched framesW.length (screenTask framesW outcomeW) [0, 0, 0, 0, 0, 1]
    (dispatchInit (min CONCURRENCY framesW.length))

theorem dispatcher_completeness_witness :
    witnessStateC1.emitted.length = framesW.length ∧
      (witnessStateC1.emitted.map fun e => e.2.1).Perm
        (List.range framesW.length) :=
  ⟨(dispatcher_completeness.1 framesW outcomeW witnessStateC1
      (runSched_reach _ _ _ _) (by decide)).1,
   (dispatcher_completeness.1 framesW outcomeW witnessStateC1
      (runSched_reach _ _ _ _) (by decide)).2.1⟩

/-! ## Claim C2: dispatcher isolation -/

/-- A plausible parsed audit body for successful screens. -/
def sampleAudit : Json :=
  .obj [("overallScore", .num "82"), ("summary", .str "Solid layout."),
        ("riskLevel", .str "Low"), ("categories", .arr [])]

/-- The five-frame scenario: frame #2's audit always fails. -/
def frames5 : List FigmaFrame :=
  [⟨"Screen 0", some "https://img.example/0.png"⟩,
   ⟨"Screen 1", some "https://img.example/1.png"⟩,
   ⟨"Screen 2", some "https://img.example/2.png"⟩,
   ⟨"Screen 3", some "https://img.example/3.png"⟩,
   ⟨"Screen 4", some "https://img.example/4.png"⟩]

def outcome2Fail : Nat → Except String Json := fun i =>
  if i = 2 then .error "Failed to audit screen" else .ok sampleAudit

/-- Claim C2.  Dispatcher isolation: in any terminal run, every frame's
callback fires with that frame's own settled outcome (some worker emitted
`(w, i, screenTask i)` for every index `i`), whatever the other frames did;
and in the 5-frame scenario with worker count 3 and frame #2 always failing,
every terminal schedule emits exactly 5 callbacks, one per index; the
callback for index 2 carries `result = null` with its `error` set to the
failure message, and every other index's callback carries its own success
result with no error. -/
theorem dispatcher_isolation :
    (∀ (frames : List FigmaFrame) (outcome : Nat → Except String Json)
      (s : DState ScreenAuditResult),
      DReach frames.length (screenTask frames outcome)
        (dispatchInit (min CONCURRENCY frames.length)) s →
      Terminal s → ∀ i, i < frames.length →
      ∃ w, (w, i, screenTask frames outcome i) ∈ s.emitted) ∧
    (∀ s : DState ScreenAuditResult,
      DReach frames5.length (screenTask frames5 outcome2Fail)
        (dispatchInit (min CONCURRENCY frames5.length)) s →
      Terminal s →
      s.emitted.length = 5 ∧
      (∀ i, i < 5 → (s.emitted.map fun e => e.2.1).count i = 1) ∧
      (∀ e ∈ s.emitted,
        (e.2.1 = 2 → (e.2.2).result = none ∧
          (e.2.2).error = some "Failed to audit screen") ∧
        (e.2.1 ≠ 2 → (e.2.2).result = some sampleAudit ∧ (e.2.2).error = none))) := by
  constructor
  · intro frames outcome s hr ht i hi
    obtain ⟨hperm, hpay⟩ :=
      dispatch_terminal_spec (by decide : (1 : Nat) ≤ CONCURRENCY) hr ht
    have hmem : i ∈ s.emitted.map fun e => e.2.1 :=
      hperm.mem_iff.mpr (List.mem_range.mpr hi)
    obtain ⟨e, he, hei⟩ := List.mem_map.mp hmem
    obtain ⟨w, j, p⟩ := e
    simp only at hei
    have hp := hpay (w, j, p) he
    simp only at hp
    subst hei
    rw [hp] at he
    exact ⟨w, he⟩
  · intro s hr ht
    obtain ⟨hperm, hpay⟩ :=
      dispatch_terminal_spec (by decide : (1 : Nat) ≤ CONCURRENCY) hr ht
    refine ⟨by simpa using hperm.length_eq, ?_, ?_⟩
    · intro i hi
      rw [hperm.count_eq]
      exact List.count_eq_one_of_mem (List.nodup_range _)
        (List.mem_range.mpr (by simpa using hi))
    · intro e he
      have hidx : e.2.1 ∈ List.range frames5.length :=
        hperm.mem_iff.mp (List.mem_map_of_mem _ he)
      have hi5 : e.2.1 < 5 := by simpa using List.mem_range.mp hidx
      have hp := hpay e he
      constructor
      · intro h2
        rw [hp, h2]
        exact ⟨rfl, rfl⟩
      · intro hne
        rw [hp]
        have hcase : e.2.1 = 0 ∨ e.2.1 = 1 ∨ e.2.1 = 3 ∨ e.2.1 = 4 := by omega
        rcases hcase with h | h | h | h <;> rw [h] <;> exact ⟨rfl, rfl⟩

/-- A terminal schedule for the C2 scenario: worker 0 drains all five tasks,
then all three workers observe exhaustion. -/
def witnessStateC2 : DState ScreenAuditResult :=
  runSched frames5.length (screenTask frames5 outcome2Fail)
    [0, 0, 0, 0, 0, 0, 0, 0, 0, 0, 0, 1, 2]
    (dispatchInit (min CONCURRENCY frames5.length))

theorem dispatcher_isolation_witness :
    witnessStateC2.emitted.length = 5 ∧
      (witnessStateC2.emitted.map fun e => e.2.1).count 2 = 1 :=
  ⟨(dispatcher_isolation.2 witnessStateC2 (runSched_reach _ _ _ _) (by decide)).1,
   (dispatcher_isolation.2 witnessStateC2 (runSched_reach _ _ _ _) (by decide)).2.1
     2 (by omega)⟩

/-! ## Claim C3: sanitizer totality and recovery order -/

/-- Claim C3.  `tryParseJSON` is a total function (every `JSON.parse`
exception in the source is caught locally): for every input it equals the
short-circuit chain fence-stripped direct parse, then brace-substring parse,
then trailing-comma-fixed parse; a fenced JSON payload with surrounding prose
and an object with a trailing comma are both recovered; and when all three
stages fail the result is `none`. -/
theorem tryParseJSON_recovery_chain :
    (∀ s : String, tryParseJSON s =
      (directParse s).orElse fun _ =>
        (braceExtractParse s).orElse fun _ => commaFixParse s) ∧
    tryParseJSON "Here is the audit:\n```json\n\x7b\"overallScore\": 80\x7d\n```\nLet me know if you need more." =
      some (Json.obj [("overallScore", Json.num "80")]) ∧
    tryParseJSON "\x7b\"a\":1,\x7d" = some (Json.obj [("a", Json.num "1")]) ∧
    (∀ s : String, directParse s = none → braceExtractParse s = none →
      commaFixParse s = none → tryParseJSON s = none) := by
  have hchain : ∀ s : String, tryParseJSON s =
      (directParse s).orElse fun _ =>
        (braceExtractParse s).orElse fun _ => commaFixParse s := by
    intro s
    simp only [tryParseJSON, directParse, braceExtractParse, commaFixParse]
    cases h1 : jsonParse (stripFences s) with
    | some o => simp [h1, Option.orElse]
    | none =>
      cases h2 : braceSubstring (stripFences s).data with
      | none => simp [h2, Option.orElse]
      | some sub =>
        cases h3 : jsonParse (String.mk sub) <;> simp [h2, h3, Option.orElse]
  refine ⟨hchain, rfl, rfl, ?_⟩
  intro s h1 h2 h3
  rw [hchain s, h1, h2, h3]
  rfl

theorem tryParseJSON_recovery_chain_witness :
    tryParseJSON "I could not find any issues worth reporting." = none :=
  tryParseJSON_recovery_chain.2.2.2
    "I could not find any issues worth reporting." rfl rfl rfl

/-! ## Claim C4: fallback totality of the single-screen auditor -/

/-- Claim C4.  Whenever the vision-model call succeeds (2xx) but the
sanitizer returns `none`, `audit-design` answers with the structurally valid
fallback `AuditResult` as a success payload — never an exception or raw parse
error: its `categories` field is the (non-null) empty array, its
`overallScore` is the in-range zero score, and its `summary` is an
explanatory sentence. -/
theorem audit_fallback_totality (req : AuditRequest) (env : AuditEnv)
    (hp : truthy req.personaId = true)
    (himg : truthy req.imageBase64 = true ∨ truthy req.imageUrl = true)
    (hhead : env.head ≠ HeadOutcome.notOk)
    (hkey : env.apiKey.isSome = true)
    (hst : isOkStatus env.modelStatus = true)
    (hparse : tryParseJSON env.modelContent = none) :
    (auditDesignServe req env).2 = AuditOutcome.ok auditFallback ∧
    jsonField auditFallback "categories" = some (Json.arr []) ∧
    (jsonField auditFallback "overallScore").bind jsonNat? = some 0 ∧
    jsonField auditFallback "summary" =
      some (Json.str "The AI analysis could not be completed for this screen. Please try again.") := by
  have hmp : ∀ evs, (auditModelPhase req env evs).2 = AuditOutcome.ok auditFallback := by
    intro evs
    unfold auditModelPhase
    cases hk : env.apiKey with
    | none => rw [hk] at hkey; simp at hkey
    | some k => simp [hst, hparse]
  refine ⟨?_, rfl, rfl, rfl⟩
  unfold auditDesignServe
  have h1 : (!truthy req.imageBase64 && !truthy req.imageUrl) = false := by
    rcases himg with h | h <;> simp [h]
  by_cases hu : truthy req.imageUrl = true
  · simp only [h1, hp, hu, Bool.not_true, Bool.false_eq_true, if_false, if_true,
      ite_true, ite_false]
    cases hh : env.head with
    | notOk => exact absurd hh hhead
    | ok => simpa using hmp _
    | threw => simpa using hmp _
  · have hu2 : truthy req.imageUrl = false := by simpa using hu
    have hb : truthy req.imageBase64 = true := by
      rcases himg with h | h
      · exact h
      · rw [h] at hu2
        exact absurd hu2 (by simp)
    simp only [h1, hp, hu2, hb, Bool.not_true, Bool.false_eq_true, if_false,
      if_true, ite_true, ite_false]
    simpa using hmp ([] : List AEvent)

def reqC4 : AuditRequest := ⟨some "QUJDRA==", none, some "solo"⟩

def envC4 : AuditEnv := ⟨some "key", HeadOutcome.ok, 200, "The screen looks fine to me!"⟩

theorem audit_fallback_totality_witness :
    (auditDesignServe reqC4 envC4).2 = AuditOutcome.ok auditFallback :=
  (audit_fallback_totality reqC4 envC4 rfl (Or.inl rfl) (by decide) rfl rfl rfl).1

/-! ## Claim C6: extraction depth invariant -/

theorem collectExportable_eq (cs : List DesignNode) :
    collectExportable cs =
      (cs.filter fun c => exportableType c.ty).map
        fun c => (⟨c.id, c.name⟩ : ExtFrame) := by
  induction cs with
  | nil => rfl
  | cons c t ih =>
    by_cases h : exportableType c.ty = true <;>
      simp [collectExportable, h, ih, List.filter_cons]

theorem extractFramesList_eq (cs : List DesignNode) :
    extractFramesList cs = cs.flatMap extractFrames := by
  induction cs with
  | nil => rfl
  | cons c t ih => simp [extractFramesList, ih]

/-- The Scenario A document: three CANVAS pages, each with two frames; the
first frame of page one contains a nested COMPONENT.  Only the six direct
frames are descriptors; the nested component is not. -/
def sampleDoc : DesignNode :=
  .node "0:0" "Document" "DOCUMENT"
    [.node "1:0" "Page 1" "CANVAS"
      [.node "1:1" "Home" "FRAME" [.node "1:9" "Nested Card" "COMPONENT" []],
       .node "1:2" "About" "FRAME" []],
     .node "2:0" "Page 2" "CANVAS"
      [.node "2:1" "Pricing" "FRAME" [], .node "2:2" "Contact" "FRAME" []],
     .node "3:0" "Page 3" "CANVAS"
      [.node "3:1" "Blog" "FRAME" [], .node "3:2" "Careers" "FRAME" []]]

/-- Claim C6.  Extraction depth invariant: on a CANVAS (page) node,
`extractFrames` is exactly the map over its direct children of exportable
type (so grandchildren of a page are never collected, whatever their types);
on a non-CANVAS node it is the depth-first concatenation over all children in
document order; and the three-pages-with-one-nested-component tree yields
exactly 6 descriptors, not 7. -/
theorem extractFrames_depth_invariant :
    (∀ (i nm : String) (cs : List DesignNode),
      extractFrames (DesignNode.node i nm "CANVAS" cs) =
        (cs.filter fun c => exportableType c.ty).map
          fun c => (⟨c.id, c.name⟩ : ExtFrame)) ∧
    (∀ (i nm t : String) (cs : List DesignNode), t ≠ "CANVAS" →
      extractFrames (DesignNode.node i nm t cs) = cs.flatMap extractFrames) ∧
    extractFrames sampleDoc =
      [⟨"1:1", "Home"⟩, ⟨"1:2", "About"⟩, ⟨"2:1", "Pricing"⟩,
       ⟨"2:2", "Contact"⟩, ⟨"3:1", "Blog"⟩, ⟨"3:2", "Careers"⟩] ∧
    (extractFrames sampleDoc).length = 6 := by
  refine ⟨?_, ?_, by decide, by decide⟩
  · intro i nm cs
    rw [show extractFrames (DesignNode.node i nm "CANVAS" cs) =
        collectExportable cs from rfl]
    exact collectExportable_eq cs
  · intro i nm t cs ht
    rw [show extractFrames (DesignNode.node i nm t cs) =
        if t = "CANVAS" then collectExportable cs else extractFramesList cs
      from rfl]
    rw [if_neg ht]
    exact extractFramesList_eq cs

theorem extractFrames_depth_invariant_witness :
    extractFrames (DesignNode.node "0:0" "Document" "DOCUMENT"
        (DesignNode.children sampleDoc)) =
      (DesignNode.children sampleDoc).flatMap extractFrames :=
  extractFrames_depth_invariant.2.1 "0:0" "Document" "DOCUMENT"
    (DesignNode.children sampleDoc) (by decide)

/-! ## Claim C7: the retry client's contract -/

/-- Backoff total from attempt `a` over `k` consecutive 429 responses. -/
def sumBackoffFrom : Nat → Nat → Nat
  | _, 0 => 0
  | a, k + 1 => backoffMs a + sumBackoffFrom (a + 1) k

theorem sumBackoffFrom_eq (a k : Nat) :
    sumBackoffFrom a k = ((List.range k).map fun j => backoffMs (a + j)).sum := by
  induction k generalizing a with
  | zero => rfl
  | succ k ih =>
    have hfe : ((fun j => backoffMs (a + j)) ∘ Nat.succ) =
        fun j => backoffMs (a + 1 + j) := by
      funext j
      simp only [Function.comp]
      congr 1
      omega
    simp [sumBackoffFrom, List.range_succ_eq_map, List.map_map, ih (a + 1), hfe]

theorem totalBackoff_eq (k : Nat) : totalBackoff k = sumBackoffFrom 0 k := by
  rw [sumBackoffFrom_eq]
  simp [totalBackoff]

theorem fetchRetryAux_spec (env : Nat → HttpResponse) :
    ∀ (k left attempt waited : Nat), k ≤ left →
      (∀ j, j < k → (env (attempt + j)).status = 429) →
      (env (attempt + k)).status ≠ 429 →
      fetchRetryAux env left attempt waited =
        (env (attempt + k), waited + sumBackoffFrom attempt k) := by
  intro k
  induction k with
  | zero =>
    intro left attempt waited _ _ hne
    cases left with
    | zero => simp [fetchRetryAux, sumBackoffFrom]
    | succ left =>
      have : (env attempt).status ≠ 429 := by simpa using hne
      simp [fetchRetryAux, this, sumBackoffFrom]
  | succ k ih =>
    intro left attempt waited hk h429 hne
    cases left with
    | zero => omega
    | succ left =>
      have h0 : (env attempt).status = 429 := by
        have := h429 0 (by omega)
        simpa using this
      have step : fetchRetryAux env (left + 1) attempt waited =
          fetchRetryAux env left (attempt + 1) (waited + backoffMs attempt) := by
        simp [fetchRetryAux, h0]
      rw [step]
      have h429s : ∀ j, j < k → (env (attempt + 1 + j)).status = 429 := by
        intro j hj
        have := h429 (j + 1) (by omega)
        have harr : attempt + (j + 1) = attempt + 1 + j := by omega
        rwa [harr] at this
      have hnes : (env (attempt + 1 + k)).status ≠ 429 := by
        have harr : attempt + (k + 1) = attempt + 1 + k := by omega
        rwa [harr] at hne
      rw [ih left (attempt + 1) (waited + backoffMs attempt) (by omega) h429s hnes]
      have harr : attempt + 1 + k = attempt + (k + 1) := by omega
      rw [harr]
      simp [sumBackoffFrom, Nat.add_assoc]

theorem fetchRetryAux_all429 (env : Nat → HttpResponse) :
    ∀ (left attempt waited : Nat),
      (∀ j, j ≤ left → (env (attempt + j)).status = 429) →
      fetchRetryAux env left attempt waited =
        (env (attempt + left), waited + sumBackoffFrom attempt left) := by
  intro left
  induction left with
  | zero =>
    intro attempt waited _
    simp [fetchRetryAux, sumBackoffFrom]
  | succ left ih =>
    intro attempt waited hall
    have h0 : (env attempt).status = 429 := by simpa using hall 0 (by omega)
    have step : fetchRetryAux env (left + 1) attempt waited =
        fetchRetryAux env left (attempt + 1) (waited + backoffMs attempt) := by
      simp [fetchRetryAux, h0]
    rw [step, ih (attempt + 1) (waited + backoffMs attempt) ?_]
    · have harr : attempt + 1 + left = attempt + (left + 1) := by omega
      rw [harr]
      simp [sumBackoffFrom, Nat.add_assoc]
    · intro j hj
      have := hall (j + 1) (by omega)
      have harr : attempt + (j + 1) = attempt + 1 + j := by omega
      rwa [harr] at this

/-- Claim C7.  `fetchWithRetry` retries only on status 429 while attempts
remain, waiting the deterministic exponential backoff between attempts:
any non-429 first response is returned immediately with zero wait; more
generally after `k` 429s a non-429 response is returned having waited the sum
of the first `k` backoff intervals; and when every attempt up to `maxRetries`
answers 429, the final 429 response object is returned (not an exception)
after the full backoff sum. -/
theorem fetchWithRetry_contract :
    (∀ (env : Nat → HttpResponse) (m : Nat), (env 0).status ≠ 429 →
      fetchWithRetry env m = (env 0, 0)) ∧
    (∀ (env : Nat → HttpResponse) (m k : Nat), k ≤ m →
      (∀ j, j < k → (env j).status = 429) → (env k).status ≠ 429 →
      fetchWithRetry env m = (env k, totalBackoff k)) ∧
    (∀ (env : Nat → HttpResponse) (m : Nat),
      (∀ j, j ≤ m → (env j).status = 429) →
      fetchWithRetry env m = (env m, totalBackoff m) ∧ (env m).status = 429) := by
  refine ⟨?_, ?_, ?_⟩
  · intro env m hne
    have := fetchRetryAux_spec env 0 m 0 0 (by omega) (by omega) (by simpa using hne)
    simpa [fetchWithRetry, sumBackoffFrom] using this
  · intro env m k hk h429 hne
    have := fetchRetryAux_spec env k m 0 0 hk (by simpa using h429) (by simpa using hne)
    simpa [fetchWithRetry, totalBackoff_eq] using this
  · intro env m hall
    have := fetchRetryAux_all429 env m 0 0 (by simpa using hall)
    refine ⟨by simpa [fetchWithRetry, totalBackoff_eq] using this, ?_⟩
    exact hall m (by omega)

theorem fetchWithRetry_contract_witness :
    fetchWithRetry (fun _ => ⟨429⟩) 3 = (⟨429⟩, 14000) ∧
      ((⟨429⟩ : HttpResponse)).status = 429 :=
  ⟨(fetchWithRetry_contract.2.2 (fun _ => ⟨429⟩) 3 fun _ _ => rfl).1, rfl⟩

/-! ## Claim C5: Figma export output guarantees -/

theorem buildFigmaResponse_spec (fn fk : String) (af : List ExtFrame)
    (im : String → Option String) :
    (buildFigmaResponse fn fk af im).totalFrames = af.length ∧
    (buildFigmaResponse fn fk af im).exportedFrames =
      (buildFigmaResponse fn fk af im).frames.length ∧
    (buildFigmaResponse fn fk af im).frames.length ≤ min af.length FRAME_CAP ∧
    (buildFigmaResponse fn fk af im).frames.Sublist
      ((af.take FRAME_CAP).map (enrichFrame im)) ∧
    ∀ f ∈ (buildFigmaResponse fn fk af im).frames, f.imageUrl.isSome = true := by
  refine ⟨rfl, rfl, ?_, List.filter_sublist _, ?_⟩
  · have h1 := List.length_filter_le (fun f => f.imageUrl.isSome)
      ((af.take FRAME_CAP).map (enrichFrame im))
    have h2 : ((af.take FRAME_CAP).map (enrichFrame im)).length =
        min FRAME_CAP af.length := by
      simp [List.length_take]
    show (((af.take FRAME_CAP).map (enrichFrame im)).filter
        (fun f => f.imageUrl.isSome)).length ≤ min af.length FRAME_CAP
    omega
  · intro f hf
    have := List.of_mem_filter hf
    simpa using this

/-- Claim C5.  Figma export output guarantees: the assembled response reports
`totalFrames` as the pre-cap extraction count; `frames` is an order-preserving
sublist of the enriched capped subset (CAP = 12) restricted to descriptors with
a resolved `imageUrl`; `exportedFrames = frames.length`; and every success
response of the handler satisfies `exportedFrames ≤ min totalFrames CAP`. -/
theorem figma_export_output_guarantees :
    (∀ (fn fk : String) (af : List ExtFrame) (im : String → Option String),
      (buildFigmaResponse fn fk af im).totalFrames = af.length ∧
      (buildFigmaResponse fn fk af im).exportedFrames =
        (buildFigmaResponse fn fk af im).frames.length ∧
      (buildFigmaResponse fn fk af im).frames.length ≤ min af.length FRAME_CAP ∧
      (buildFigmaResponse fn fk af im).frames.Sublist
        ((af.take FRAME_CAP).map (enrichFrame im)) ∧
      ∀ f ∈ (buildFigmaResponse fn fk af im).frames, f.imageUrl.isSome = true) ∧
    (∀ (url : Option String) (env : FigmaEnv) (tr : List FigmaEvent)
      (resp : FigmaResponse), figmaServe url env = (tr, FigmaOutcome.ok resp) →
      resp.exportedFrames = resp.frames.length ∧
      resp.exportedFrames ≤ min resp.totalFrames FRAME_CAP) := by
  refine ⟨buildFigmaResponse_spec, ?_⟩
  intro url env tr resp h
  have hinv : ∃ fn fk af im, resp = buildFigmaResponse fn fk af im := by
    unfold figmaServe at h
    repeat' split at h
    all_goals
      first
      | (simp only [Prod.mk.injEq] at h
         exact absurd h.2 (by simp))
      | (simp only [Prod.mk.injEq, FigmaOutcome.ok.injEq] at h
         exact ⟨_, _, _, _, h.2.symm⟩)
      | (cases hemp : (extractFramesList env.pages).isEmpty with
         | true => simp [hemp] at h
         | false =>
           simp only [hemp, Bool.false_eq_true, if_false] at h
           first
           | (simp only [Prod.mk.injEq, FigmaOutcome.ok.injEq] at h
              exact ⟨_, _, _, _, h.2.symm⟩)
           | (simp only [Prod.mk.injEq] at h
              exact absurd h.2 (by simp))
           | (split at h
              all_goals
                first
                | (simp only [Prod.mk.injEq, FigmaOutcome.ok.injEq] at h
                   exact ⟨_, _, _, _, h.2.symm⟩)
                | (simp only [Prod.mk.injEq] at h
                   exact absurd h.2 (by simp))))
  obtain ⟨fn, fk, af, im, rfl⟩ := hinv
  obtain ⟨h1, h2, h3, _, _⟩ := buildFigmaResponse_spec fn fk af im
  refine ⟨h2, ?_⟩
  rw [h1, h2]
  exact h3

def urlC5 : Option String := some "https://www.figma.com/file/AbC123/My-Designs"

def envC5 : FigmaEnv :=
  { token := some "figd_token", fileStatus := 200, fileName := some "My Designs",
    pages := [DesignNode.node "0:1" "Page 1" "CANVAS"
      [DesignNode.node "1:1" "Home" "FRAME" [],
       DesignNode.node "1:2" "About" "FRAME" []]],
    singleStatus := 200,
    singleImages := fun id => if id = "1:1" then some "https://cdn.example/a.png" else none,
    batchStatus := fun _ => 200, batchImages := fun _ _ => none }

def respC5 : FigmaResponse :=
  ⟨"My Designs", "AbC123",
   [⟨"1:1", "Home", "1:1", some "https://cdn.example/a.png"⟩], 2, 1⟩

theorem figma_export_output_guarantees_witness :
    respC5.exportedFrames = respC5.frames.length ∧
      respC5.exportedFrames ≤ min respC5.totalFrames FRAME_CAP :=
  figma_export_output_guarantees.2 urlC5 envC5
    [FigmaEvent.fileFetch "AbC123", FigmaEvent.imageExport "AbC123" ["1:1", "1:2"]]
    respC5 rfl

/-! ## Claim C8: the empty-export case

The handler's response assembly has no emptiness check after dropping
unresolved descriptors: when no URL resolves it returns a 200 success payload
with `frames = []` and `exportedFrames = 0`.  The failed-export error,
distinct from the extraction step's "No frames found" error, is raised one
layer up, by the client hook `useFigmaFrames.fetchFrames`, upon receiving
such a payload. -/

def envC8 : FigmaEnv :=
  { token := some "figd_token", fileStatus := 200, fileName := none,
    pages := [DesignNode.node "0:1" "Page 1" "CANVAS"
      [DesignNode.node "1:1" "Home" "FRAME" []]],
    singleStatus := 200,
    singleImages := fun _ => none,
    batchStatus := fun _ => 200, batchImages := fun _ _ => none }

/-- Counterexample to claim C8 as stated: with one extracted frame whose URL
never resolves, the `fetch-figma-frames` handler returns a success payload
with an empty frames list — not a failed-export error. -/
theorem figma_empty_export_counterexample :
    figmaServe urlC5 envC8 =
      ([FigmaEvent.fileFetch "AbC123", FigmaEvent.imageExport "AbC123" ["1:1"]],
       FigmaOutcome.ok ⟨"Untitled", "AbC123", [], 1, 0⟩) ∧
    (FigmaResponse.frames ⟨"Untitled", "AbC123", [], 1, 0⟩) = [] :=
  ⟨rfl, rfl⟩

/-- Claim C8 as amended: when every capped descriptor's URL fails to resolve
the edge function's success payload has `frames = []`, and the client-side
`fetchFrames` wrapper rejects such a payload with the failed-export error,
which is distinct from the extraction step's "no frames found" error. -/
theorem figma_empty_export_amended :
    (∀ (fn fk : String) (af : List ExtFrame) (im : String → Option String),
      (∀ id, im id = none) → (buildFigmaResponse fn fk af im).frames = []) ∧
    (∀ resp : FigmaResponse, resp.frames = [] →
      fetchFramesClient (FigmaOutcome.ok resp) = Except.error noValidFramesMsg) ∧
    noValidFramesMsg ≠ "No frames found in this Figma file." := by
  refine ⟨?_, ?_, by decide⟩
  · intro fn fk af im h
    unfold buildFigmaResponse
    simp only []
    rw [List.filter_eq_nil_iff]
    intro f hf
    obtain ⟨g, _, rfl⟩ := List.mem_map.mp hf
    simp [enrichFrame, h]
  · intro resp h
    unfold fetchFramesClient
    simp [h, clientValidFrames]

theorem figma_empty_export_amended_witness :
    fetchFramesClient (FigmaOutcome.ok (buildFigmaResponse "Untitled" "AbC123"
        [⟨"1:1", "Home"⟩] fun _ => none)) = Except.error noValidFramesMsg :=
  figma_empty_export_amended.2.1 _
    (figma_empty_export_amended.1 "Untitled" "AbC123" [⟨"1:1", "Home"⟩]
      (fun _ => none) fun _ => rfl)

/-! ## Claim C9: fail-fast before I/O

`fetch-figma-frames` does run all validation and configuration checks before
its first fetch.  But in `audit-design` the `imageUrl` accessibility `HEAD`
pre-check (lines 199-214) runs *before* the `LOVABLE_API_KEY` check
(lines 216-219), so a missing-credential configuration error can be returned
after a network call. -/

def reqC9 : AuditRequest := ⟨none, some "https://images.example/frame.png", some "solo"⟩

def envC9 : AuditEnv := ⟨none, HeadOutcome.ok, 200, ""⟩

/-- Counterexample to claim C9 as stated: a request with an `imageUrl` to the
`audit-design` handler whose environment lacks the API key yields the
missing-credential error payload only after the `HEAD` fetch to the image URL
— the event trace preceding the configuration error is not empty. -/
theorem failfast_counterexample :
    auditDesignServe reqC9 envC9 =
      ([AEvent.headCheck "https://images.example/frame.png"],
       AuditOutcome.err 500 "LOVABLE_API_KEY is not configured") ∧
    ([AEvent.headCheck "https://images.example/frame.png"] : List AEvent) ≠ [] :=
  ⟨rfl, by simp⟩

/-- Claim C9 as amended: every validation error of both handlers, and every
configuration error of `fetch-figma-frames`, is returned with an empty event
trace (no network call); in `audit-design` the missing-credential error is
also returned with an empty trace when no `imageUrl` is supplied, but when an
`imageUrl` is supplied the accessibility `HEAD` pre-check on it is the one
network call that precedes the configuration error. -/
theorem failfast_amended :
    (∀ (url : Option String) (env : FigmaEnv), truthy url = false →
      figmaServe url env = ([], FigmaOutcome.err 400 "figmaUrl is required")) ∧
    (∀ (url : Option String) (env : FigmaEnv), truthy url = true →
      env.token = none →
      figmaServe url env = ([], FigmaOutcome.err 500
        "FIGMA_ACCESS_TOKEN is not configured. Please add your Figma token.")) ∧
    (∀ (url : Option String) (env : FigmaEnv) (tk : String),
      truthy url = true → env.token = some tk →
      parseFigmaUrlModel (url.getD "") = UrlParse.noMatch →
      figmaServe url env = ([], FigmaOutcome.err 400
        "Invalid Figma URL. Please provide a valid Figma file or design link.")) ∧
    (∀ (req : AuditRequest) (env : AuditEnv),
      truthy req.imageBase64 = false → truthy req.imageUrl = false →
      auditDesignServe req env =
        ([], AuditOutcome.err 400 "Either imageBase64 or imageUrl is required")) ∧
    (∀ (req : AuditRequest) (env : AuditEnv),
      (truthy req.imageBase64 = true ∨ truthy req.imageUrl = true) →
      truthy req.personaId = false →
      auditDesignServe req env = ([], AuditOutcome.err 400 "personaId is required")) ∧
    (∀ (req : AuditRequest) (env : AuditEnv),
      truthy req.imageBase64 = true → truthy req.imageUrl = false →
      truthy req.personaId = true → env.apiKey = none →
      auditDesignServe req env =
        ([], AuditOutcome.err 500 "LOVABLE_API_KEY is not configured")) ∧
    (∀ (req : AuditRequest) (env : AuditEnv) (u : String),
      truthy req.personaId = true → req.imageUrl = some u →
      truthy req.imageUrl = true → env.head ≠ HeadOutcome.notOk →
      env.apiKey = none →
      auditDesignServe req env =
        ([AEvent.headCheck u],
         AuditOutcome.err 500 "LOVABLE_API_KEY is not configured")) := by
  refine ⟨?_, ?_, ?_, ?_, ?_, ?_, ?_⟩
  · intro url env h
    simp [figmaServe, h]
  · intro url env h htk
    simp [figmaServe, h, htk]
  · intro url env tk h htk hpm
    simp [figmaServe, h, htk, hpm]
  · intro req env hb hu
    simp [auditDesignServe, hb, hu]
  · intro req env himg hp
    have h1 : (!truthy req.imageBase64 && !truthy req.imageUrl) = false := by
      rcases himg with h | h <;> simp [h]
    simp [auditDesignServe, h1, hp]
  · intro req env hb hu hp hk
    simp [auditDesignServe, auditModelPhase, hb, hu, hp, hk]
  · intro req env u hp hu htu hh hk
    have htu2 : truthy (some u) = true := by
      rw [← hu]
      exact htu
    cases hhh : env.head with
    | notOk => exact absurd hhh hh
    | ok => simp [auditDesignServe, auditModelPhase, hu, htu2, hp, hk, hhh]
    | threw => simp [auditDesignServe, auditModelPhase, hu, htu2, hp, hk, hhh]

def envC9V : FigmaEnv :=
  { token := none, fileStatus := 500, fileName := none, pages := [],
    singleStatus := 500, singleImages := fun _ => none,
    batchStatus := fun _ => 500, batchImages := fun _ _ => none }

theorem failfast_amended_witness :
    figmaServe (some "") envC9V =
      ([], FigmaOutcome.err 400 "figmaUrl is required") :=
  failfast_amended.1 (some "") envC9V rfl

/-! ## Claim C10: implicit image-source precedence -/

/-- Claim C10.  When a request supplies both a nonempty `imageBase64` and a
nonempty `imageUrl`: the `HEAD` accessibility pre-check on `imageUrl` still
runs, and a non-OK `HEAD` response rejects the whole request with the
400 "no longer accessible" error (no model call happens); and whenever the
model is called, the image content sent is the base64 data URL — the
`imageUrl` is never the image fed to the model. -/
theorem base64_precedence (req : AuditRequest) (env : AuditEnv) (b u : String)
    (hb : req.imageBase64 = some b) (hbne : b ≠ "")
    (hu : req.imageUrl = some u) (hune : u ≠ "") :
    (env.head = HeadOutcome.notOk → truthy req.personaId = true →
      auditDesignServe req env =
        ([AEvent.headCheck u], AuditOutcome.err 400
          "Design image is no longer accessible. Figma image URLs may have expired. Please re-extract the frames.")) ∧
    (∀ img, AEvent.modelCall img ∈ (auditDesignServe req env).1 →
      img = ImageContent.base64 (dataUrlOfBase64 b)) := by
  have htb : truthy req.imageBase64 = true := by
    have hbe : b.isEmpty = false := by
      by_cases h : b.isEmpty = true
      · exact absurd ((String.isEmpty_iff b).mp h) hbne
      · simpa using h
    rw [hb]
    simp [truthy, hbe]
  have htu : truthy req.imageUrl = true := by
    have hue : u.isEmpty = false := by
      by_cases h : u.isEmpty = true
      · exact absurd ((String.isEmpty_iff u).mp h) hune
      · simpa using h
    rw [hu]
    simp [truthy, hue]
  have h1 : (!truthy req.imageBase64 && !truthy req.imageUrl) = false := by
    simp [htb]
  have himgc :
      (if truthy req.imageBase64 then
        ImageContent.base64 (dataUrlOfBase64 (req.imageBase64.getD ""))
      else ImageContent.url (req.imageUrl.getD "")) =
        ImageContent.base64 (dataUrlOfBase64 b) := by
    rw [if_pos htb, hb]
    rfl
  have hmp : ∀ evs, (auditModelPhase req env evs).1 = evs ∨
      (auditModelPhase req env evs).1 =
        evs ++ [AEvent.modelCall (ImageContent.base64 (dataUrlOfBase64 b))] := by
    intro evs
    unfold auditModelPhase
    cases env.apiKey with
    | none => exact Or.inl rfl
    | some k =>
      right
      simp only [himgc]
      split
      · split <;> rfl
      · split
        · rfl
        · split <;> rfl
  have htu2 : truthy (some u) = true := by
    rw [← hu]
    exact htu
  constructor
  · intro hh hp
    unfold auditDesignServe
    simp [hp, htb, htu2, hu, hh]
  · intro img hmem
    unfold auditDesignServe at hmem
    by_cases hp : truthy req.personaId = true
    · simp only [hp, htb, htu2, hu, Bool.not_true, Bool.and_false,
        Bool.false_eq_true, if_false, if_true, ite_true, ite_false,
        Option.getD_some] at hmem
      cases hhh : env.head with
      | notOk =>
        rw [hhh] at hmem
        simp at hmem
      | ok =>
        rw [hhh] at hmem
        rcases hmp [AEvent.headCheck u] with h2 | h2 <;> rw [h2] at hmem
        · simp at hmem
        · rcases List.mem_append.mp hmem with h3 | h3
          · simp at h3
          · simpa using h3
      | threw =>
        rw [hhh] at hmem
        rcases hmp [AEvent.headCheck u] with h2 | h2 <;> rw [h2] at hmem
        · simp at hmem
        · rcases List.mem_append.mp hmem with h3 | h3
          · simp at h3
          · simpa using h3
    · have hp2 : truthy req.personaId = false := by simpa using hp
      simp [h1, hp2] at hmem

def reqC10 : AuditRequest :=
  ⟨some "QUJD", some "https://images.example/x.png", some "solo"⟩

def envC10 : AuditEnv := ⟨some "key", HeadOutcome.notOk, 200, ""⟩

theorem base64_precedence_witness :
    auditDesignServe reqC10 envC10 =
      ([AEvent.headCheck "https://images.example/x.png"],
       AuditOutcome.err 400
         "Design image is no longer accessible. Figma image URLs may have expired. Please re-extract the frames.") :=
  (base64_precedence reqC10 envC10 "QUJD" "https://images.example/x.png"
    rfl (by decide) rfl (by decide)).1 rfl rfl

end UXPro
